import Mathlib

set_option linter.unusedVariables false

/-- Position information: a half-open byte interval, zero-based. Mirrors the
tuple struct of the source holding two unsigned offsets. -/
structure Loc where
  lo : Nat
  hi : Nat
deriving DecidableEq

/-- Span combination from the source: componentwise minimum of the starts and
maximum of the ends. -/
def Loc.merge (self other : Loc) : Loc :=
  Loc.mk (min self.lo other.lo) (max self.hi other.hi)

/-- A payload annotated with its source span. -/
structure Annot (T : Type) where
  value : T
  loc : Loc
deriving DecidableEq

/-- Constructor of the source pairing a value with a span. -/
def Annot.new {T : Type} (value : T) (loc : Loc) : Annot T :=
  Annot.mk value loc

/-- The closed set of token kinds of the source. -/
inductive TokenKind where
  | Number (n : Nat)
  | Plus
  | Minus
  | Asterisk
  | Slash
  | LParen
  | RParen
deriving DecidableEq

/-- Token is the annotated token kind, as in the source type alias. -/
abbrev Token := Annot TokenKind

/-- Helper constructor Token.number of the source. -/
def Token.number (n : Nat) (loc : Loc) : Token :=
  Annot.new (TokenKind.Number n) loc

/-- Helper constructor Token.plus of the source. -/
def Token.plus (loc : Loc) : Token :=
  Annot.new TokenKind.Plus loc

/-- Helper constructor Token.minus of the source. -/
def Token.minus (loc : Loc) : Token :=
  Annot.new TokenKind.Minus loc

/-- Helper constructor Token.asterisk of the source. -/
def Token.asterisk (loc : Loc) : Token :=
  Annot.new TokenKind.Asterisk loc

/-- Helper constructor Token.slash of the source. -/
def Token.slash (loc : Loc) : Token :=
  Annot.new TokenKind.Slash loc

/-- Helper constructor Token.lparen of the source. -/
def Token.lparen (loc : Loc) : Token :=
  Annot.new TokenKind.LParen loc

/-- Helper constructor Token.rparen of the source. -/
def Token.rparen (loc : Loc) : Token :=
  Annot.new TokenKind.RParen loc

/-- The closed set of lexing error kinds of the source; characters are
modelled by their byte value, matching the ASCII-only inputs. -/
inductive LexErrorKind where
  | InvalidChar (c : Nat)
  | Eof
deriving DecidableEq

/-- LexError is the annotated error kind, as in the source type alias. -/
abbrev LexError := Annot LexErrorKind

/-- Helper constructor LexError.invalid_char of the source. -/
def LexError.invalid_char (c : Nat) (loc : Loc) : LexError :=
  Annot.new (LexErrorKind.InvalidChar c) loc

/-- Helper constructor LexError.eof of the source. -/
def LexError.eof (loc : Loc) : LexError :=
  Annot.new LexErrorKind.Eof loc

/-- The source loop advances pos while it is in bounds and the current byte
satisfies f; the result is therefore pos plus the length of the longest
prefix of the remaining bytes all satisfying f. -/
def recognize_many (input : List Nat) (pos : Nat) (f : Nat → Bool) : Nat :=
  pos + ((input.drop pos).takeWhile f).length

/-- Consume one expected byte, exactly as in the source: past the end it
fails with Eof on the empty span at pos; a present byte different from b
fails with InvalidChar on the unit span at pos; otherwise it succeeds with
the byte and pos plus one. -/
def consume_byte (input : List Nat) (pos : Nat) (b : Nat) :
    Except LexError (Nat × Nat) :=
  if h : input.length ≤ pos then
    Except.error (LexError.eof (Loc.mk pos pos))
  else if input[pos] ≠ b then
    Except.error
      (LexError.invalid_char (input[pos]) (Loc.mk pos (pos + 1)))
  else
    Except.ok (b, pos + 1)

/-- Sub-lexer for the plus byte (43), via consume_byte as in the source. -/
def lex_plus (input : List Nat) (start : Nat) :
    Except LexError (Token × Nat) :=
  (consume_byte input start 43).map fun x => (Token.plus (Loc.mk start x.2), x.2)

/-- Sub-lexer for the minus byte (45). -/
def lex_minus (input : List Nat) (start : Nat) :
    Except LexError (Token × Nat) :=
  (consume_byte input start 45).map fun x => (Token.minus (Loc.mk start x.2), x.2)

/-- Sub-lexer for the asterisk byte (42). -/
def lex_asterisk (input : List Nat) (start : Nat) :
    Except LexError (Token × Nat) :=
  (consume_byte input start 42).map fun x => (Token.asterisk (Loc.mk start x.2), x.2)

/-- Sub-lexer for the slash byte (47). -/
def lex_slash (input : List Nat) (start : Nat) :
    Except LexError (Token × Nat) :=
  (consume_byte input start 47).map fun x => (Token.slash (Loc.mk start x.2), x.2)

/-- Sub-lexer for the left parenthesis byte (40). -/
def lex_lparen (input : List Nat) (start : Nat) :
    Except LexError (Token × Nat) :=
  (consume_byte input start 40).map fun x => (Token.lparen (Loc.mk start x.2), x.2)

/-- Sub-lexer for the right parenthesis byte (41). -/
def lex_rparen (input : List Nat) (start : Nat) :
    Except LexError (Token × Nat) :=
  (consume_byte input start 41).map fun x => (Token.rparen (Loc.mk start x.2), x.2)

/-- Models the standard-library parse of a byte string into an unsigned
64-bit integer: it fails on the empty string and on any non-digit byte,
and otherwise yields the base-10 value when it fits in 64 bits, failing on
overflow. -/
def parse_u64 (s : List Nat) : Option Nat :=
  if s.isEmpty then none
  else if s.all (fun b => 48 ≤ b && b ≤ 57) then
    let v := s.foldl (fun acc b => acc * 10 + (b - 48)) 0
    if v < 2 ^ 64 then some v else none
  else none

/-- The number sub-lexer exactly as written in the source: it computes the
end of the maximal digit run into a local that is never used again, then
slices the input from start to pos, where pos still equals start, so the
slice is empty; the subsequent parse of the empty string fails and the
source unwraps that failure, a panic, modelled here as none. Note the
source return type is a plain pair rather than a Result, although the
driver applies the question-mark operator to it. -/
def lex_number (input : List Nat) (pos : Nat) : Option (Token × Nat) :=
  let start := pos
  let _end := recognize_many input start fun b =>
    ([49, 50, 51, 52, 53, 54, 55, 56, 57, 48].contains b)
  match parse_u64 ((input.drop start).take (pos - start)) with
  | some n => some (Token.number n (Loc.mk start pos), pos)
  | none => none

/-- Whitespace skipper of the source: always succeeds, moving pos past the
maximal run of space (32), newline (10) and tab (9) bytes. -/
def skip_spaces (input : List Nat) (pos : Nat) :
    Except LexError (Unit × Nat) :=
  let pos := recognize_many input pos fun b => ([32, 10, 9].contains b)
  Except.ok ((), pos)

/-- Possible outcomes of running the lexer: a token sequence, a positioned
lexing error, a panic (an unwrap of a failed parse inside lex_number), or
exhaustion of the fuel parameter of the model, which the supplied fuel
never reaches. -/
inductive LexOutcome where
  | ok (tokens : List Token)
  | err (e : LexError)
  | panic
  | fuelOut
deriving DecidableEq

/-- The driver loop of lex. Dispatch on the current byte follows the source
match arm for arm: digit range 48 to 57, then the six operator and
parenthesis bytes, then whitespace, then the InvalidChar fallback. In the
source the digit arm feeds lex_number through the lex_a_token macro, which
applies the question-mark operator to a value whose type is a plain pair,
not a Result, so the crate does not type-check as written; since the body
of lex_number unconditionally fails its inner unwrap, the model propagates
that panic from the digit arm. The fuel argument only drives structural
recursion: every arm that continues the loop advances pos by at least one
byte, so the fuel that lex supplies, input length plus one, is never
exhausted. -/
def lexLoop (input : List Nat) : Nat → Nat → List Token → LexOutcome
  | 0, _, _ => LexOutcome.fuelOut
  | fuel + 1, pos, tokens =>
    if h : pos < input.length then
      if 48 ≤ input[pos] ∧ input[pos] ≤ 57 then
        match lex_number input pos with
        | some (tok, p) => lexLoop input fuel p (tokens ++ [tok])
        | none => LexOutcome.panic
      else if input[pos] = 43 then
        match lex_plus input pos with
        | Except.ok (tok, p) => lexLoop input fuel p (tokens ++ [tok])
        | Except.error e => LexOutcome.err e
      else if input[pos] = 45 then
        match lex_minus input pos with
        | Except.ok (tok, p) => lexLoop input fuel p (tokens ++ [tok])
        | Except.error e => LexOutcome.err e
      else if input[pos] = 42 then
        match lex_asterisk input pos with
        | Except.ok (tok, p) => lexLoop input fuel p (tokens ++ [tok])
        | Except.error e => LexOutcome.err e
      else if input[pos] = 47 then
        match lex_slash input pos with
        | Except.ok (tok, p) => lexLoop input fuel p (tokens ++ [tok])
        | Except.error e => LexOutcome.err e
      else if input[pos] = 40 then
        match lex_lparen input pos with
        | Except.ok (tok, p) => lexLoop input fuel p (tokens ++ [tok])
        | Except.error e => LexOutcome.err e
      else if input[pos] = 41 then
        match lex_rparen input pos with
        | Except.ok (tok, p) => lexLoop input fuel p (tokens ++ [tok])
        | Except.error e => LexOutcome.err e
      else if input[pos] = 32 ∨ input[pos] = 10 ∨ input[pos] = 9 then
        match skip_spaces input pos with
        | Except.ok (_, p) => lexLoop input fuel p tokens
        | Except.error e => LexOutcome.err e
      else
        LexOutcome.err (LexError.invalid_char (input[pos]) (Loc.mk pos (pos + 1)))
    else
      LexOutcome.ok tokens

/-- The lexer: scans the byte sequence from position zero with an empty
token accumulator. -/
def lex (input : List Nat) : LexOutcome :=
  lexLoop input (input.length + 1) 0 []

/-- Interval containment between spans: the outer half-open interval
includes the inner one. -/
def spanContains (outer inner : Loc) : Prop :=
  outer.lo ≤ inner.lo ∧ inner.hi ≤ outer.hi


theorem takeWhile_length_le (f : Nat → Bool) (l : List Nat) :
    (l.takeWhile f).length ≤ l.length := by
  induction l with
  | nil => simp
  | cons a t ih =>
    by_cases hfa : f a
    · simp only [List.takeWhile_cons_of_pos hfa, List.length_cons]
      omega
    · simp only [List.takeWhile_cons_of_neg hfa, List.length_cons, List.length_nil]
      omega

theorem takeWhile_sat (f : Nat → Bool) (l : List Nat) :
    ∀ (j : Nat), j < (l.takeWhile f).length →
      ∃ hj2 : j < l.length, f (l[j]) = true := by
  induction l with
  | nil => intro j hj; simp at hj
  | cons a t ih =>
    intro j hj
    by_cases hfa : f a
    · simp only [List.takeWhile_cons_of_pos hfa, List.length_cons] at hj
      cases j with
      | zero => exact ⟨by simp, by simpa using hfa⟩
      | succ j =>
        obtain ⟨hj2, hfj⟩ := ih j (by omega)
        refine ⟨by simp; omega, ?_⟩
        simpa using hfj
    · simp only [List.takeWhile_cons_of_neg hfa, List.length_nil] at hj
      omega

theorem takeWhile_stop (f : Nat → Bool) (l : List Nat) :
    ∀ (h : (l.takeWhile f).length < l.length),
      f (l[(l.takeWhile f).length]) = false := by
  induction l with
  | nil => intro h; simp at h
  | cons a t ih =>
    intro h
    by_cases hfa : f a
    · simp only [List.takeWhile_cons_of_pos hfa, List.length_cons] at h ⊢
      simp only [List.getElem_cons_succ]
      exact ih (by omega)
    · simp only [List.takeWhile_cons_of_neg hfa, List.length_nil,
        List.getElem_cons_zero]
      simpa using hfa

theorem recognize_many_ge (input : List Nat) (pos : Nat) (f : Nat → Bool) :
    pos ≤ recognize_many input pos f := by
  simp [recognize_many]

theorem recognize_many_le (input : List Nat) (pos : Nat) (f : Nat → Bool)
    (h : pos ≤ input.length) : recognize_many input pos f ≤ input.length := by
  have h2 := takeWhile_length_le f (input.drop pos)
  rw [List.length_drop] at h2
  simp only [recognize_many]
  omega

theorem recognize_many_sat (input : List Nat) (pos : Nat) (f : Nat → Bool)
    (i : Nat) (h1 : pos ≤ i) (h2 : i < recognize_many input pos f) :
    ∃ hi : i < input.length, f (input[i]) = true := by
  simp only [recognize_many] at h2
  obtain ⟨hj2, hfj⟩ := takeWhile_sat f (input.drop pos) (i - pos) (by omega)
  rw [List.length_drop] at hj2
  refine ⟨by omega, ?_⟩
  simp only [List.getElem_drop] at hfj
  have he : pos + (i - pos) = i := by omega
  simpa [he] using hfj

theorem recognize_many_stop (input : List Nat) (pos : Nat) (f : Nat → Bool)
    (h : recognize_many input pos f < input.length) :
    f (input[recognize_many input pos f]) = false := by
  have hge := recognize_many_ge input pos f
  simp only [recognize_many] at h ⊢
  have hlt : ((input.drop pos).takeWhile f).length < (input.drop pos).length := by
    rw [List.length_drop]; omega
  have hstop := takeWhile_stop f (input.drop pos) hlt
  simp only [List.getElem_drop] at hstop
  exact hstop

theorem recognize_many_advance (input : List Nat) (pos : Nat) (f : Nat → Bool)
    (h : pos < input.length) (hf : f (input[pos]) = true) :
    pos + 1 ≤ recognize_many input pos f := by
  simp only [recognize_many]
  rw [List.drop_eq_getElem_cons h]
  rw [List.takeWhile_cons_of_pos hf]
  simp

theorem consume_byte_eof (input : List Nat) (pos b : Nat)
    (h : input.length ≤ pos) :
    consume_byte input pos b = Except.error (LexError.eof (Loc.mk pos pos)) := by
  unfold consume_byte
  rw [dif_pos h]

theorem consume_byte_mismatch (input : List Nat) (pos b : Nat)
    (h : pos < input.length) (hne : input[pos] ≠ b) :
    consume_byte input pos b =
      Except.error (LexError.invalid_char (input[pos]) (Loc.mk pos (pos + 1))) := by
  unfold consume_byte
  split
  · omega
  · rfl

theorem consume_byte_hit (input : List Nat) (pos b : Nat)
    (h : pos < input.length) (he : input[pos] = b) :
    consume_byte input pos b = Except.ok (b, pos + 1) := by
  unfold consume_byte
  split
  · omega
  · rw [if_neg (not_not.mpr he)]

theorem consume_byte_ok_eq (input : List Nat) (pos b : Nat) (x : Nat × Nat)
    (hx : consume_byte input pos b = Except.ok x) : x = (b, pos + 1) := by
  unfold consume_byte at hx
  split at hx
  · exact Except.noConfusion hx
  · split at hx
    · exact Except.noConfusion hx
    · cases hx; rfl

theorem lex_plus_hit (input : List Nat) (pos : Nat)
    (h : pos < input.length) (he : input[pos] = 43) :
    lex_plus input pos = Except.ok (Token.plus (Loc.mk pos (pos + 1)), pos + 1) := by
  unfold lex_plus
  rw [consume_byte_hit input pos 43 h he]
  rfl

theorem lex_minus_hit (input : List Nat) (pos : Nat)
    (h : pos < input.length) (he : input[pos] = 45) :
    lex_minus input pos = Except.ok (Token.minus (Loc.mk pos (pos + 1)), pos + 1) := by
  unfold lex_minus
  rw [consume_byte_hit input pos 45 h he]
  rfl

theorem lex_asterisk_hit (input : List Nat) (pos : Nat)
    (h : pos < input.length) (he : input[pos] = 42) :
    lex_asterisk input pos = Except.ok (Token.asterisk (Loc.mk pos (pos + 1)), pos + 1) := by
  unfold lex_asterisk
  rw [consume_byte_hit input pos 42 h he]
  rfl

theorem lex_slash_hit (input : List Nat) (pos : Nat)
    (h : pos < input.length) (he : input[pos] = 47) :
    lex_slash input pos = Except.ok (Token.slash (Loc.mk pos (pos + 1)), pos + 1) := by
  unfold lex_slash
  rw [consume_byte_hit input pos 47 h he]
  rfl

theorem lex_lparen_hit (input : List Nat) (pos : Nat)
    (h : pos < input.length) (he : input[pos] = 40) :
    lex_lparen input pos = Except.ok (Token.lparen (Loc.mk pos (pos + 1)), pos + 1) := by
  unfold lex_lparen
  rw [consume_byte_hit input pos 40 h he]
  rfl

theorem lex_rparen_hit (input : List Nat) (pos : Nat)
    (h : pos < input.length) (he : input[pos] = 41) :
    lex_rparen input pos = Except.ok (Token.rparen (Loc.mk pos (pos + 1)), pos + 1) := by
  unfold lex_rparen
  rw [consume_byte_hit input pos 41 h he]
  rfl

theorem lex_number_eq_none (input : List Nat) (pos : Nat) :
    lex_number input pos = none := by
  simp [lex_number, parse_u64]

theorem lexLoop_step (input : List Nat) (fuel pos : Nat) (tokens : List Token)
    (h : pos < input.length) :
    (∃ p tokens2, pos + 1 ≤ p ∧
      lexLoop input (fuel + 1) pos tokens = lexLoop input fuel p tokens2) ∨
    lexLoop input (fuel + 1) pos tokens = LexOutcome.panic ∨
    lexLoop input (fuel + 1) pos tokens =
      LexOutcome.err (LexError.invalid_char (input[pos]) (Loc.mk pos (pos + 1))) := by
  by_cases hdig : 48 ≤ input[pos] ∧ input[pos] ≤ 57
  · right; left
    simp only [lexLoop]
    rw [dif_pos h, if_pos hdig, lex_number_eq_none]
  · by_cases h43 : input[pos] = 43
    · left
      refine ⟨pos + 1, tokens ++ [Token.plus (Loc.mk pos (pos + 1))], by omega, ?_⟩
      simp only [lexLoop]
      rw [dif_pos h, if_neg hdig, if_pos h43, lex_plus_hit input pos h h43]
    · by_cases h45 : input[pos] = 45
      · left
        refine ⟨pos + 1, tokens ++ [Token.minus (Loc.mk pos (pos + 1))], by omega, ?_⟩
        simp only [lexLoop]
        rw [dif_pos h, if_neg hdig, if_neg h43, if_pos h45,
          lex_minus_hit input pos h h45]
      · by_cases h42 : input[pos] = 42
        · left
          refine ⟨pos + 1, tokens ++ [Token.asterisk (Loc.mk pos (pos + 1))], by omega, ?_⟩
          simp only [lexLoop]
          rw [dif_pos h, if_neg hdig, if_neg h43, if_neg h45, if_pos h42,
            lex_asterisk_hit input pos h h42]
        · by_cases h47 : input[pos] = 47
          · left
            refine ⟨pos + 1, tokens ++ [Token.slash (Loc.mk pos (pos + 1))], by omega, ?_⟩
            simp only [lexLoop]
            rw [dif_pos h, if_neg hdig, if_neg h43, if_neg h45, if_neg h42,
              if_pos h47, lex_slash_hit input pos h h47]
          · by_cases h40 : input[pos] = 40
            · left
              refine ⟨pos + 1, tokens ++ [Token.lparen (Loc.mk pos (pos + 1))], by omega, ?_⟩
              simp only [lexLoop]
              rw [dif_pos h, if_neg hdig, if_neg h43, if_neg h45, if_neg h42,
                if_neg h47, if_pos h40, lex_lparen_hit input pos h h40]
            · by_cases h41 : input[pos] = 41
              · left
                refine ⟨pos + 1, tokens ++ [Token.rparen (Loc.mk pos (pos + 1))], by omega, ?_⟩
                simp only [lexLoop]
                rw [dif_pos h, if_neg hdig, if_neg h43, if_neg h45, if_neg h42,
                  if_neg h47, if_neg h40, if_pos h41, lex_rparen_hit input pos h h41]
              · by_cases hws : input[pos] = 32 ∨ input[pos] = 10 ∨ input[pos] = 9
                · left
                  refine ⟨recognize_many input pos fun b => ([32, 10, 9].contains b),
                    tokens, recognize_many_advance input pos _ h ?hf, ?heq⟩
                  case hf => rcases hws with hw|hw|hw <;> rw [hw] <;> decide
                  case heq =>
                    simp only [lexLoop]
                    rw [dif_pos h, if_neg hdig, if_neg h43, if_neg h45, if_neg h42,
                      if_neg h47, if_neg h40, if_neg h41, if_pos hws]
                    simp only [skip_spaces]
                · right; right
                  simp only [lexLoop]
                  rw [dif_pos h, if_neg hdig, if_neg h43, if_neg h45, if_neg h42,
                    if_neg h47, if_neg h40, if_neg h41, if_neg hws]

theorem lexLoop_ne_fuelOut (input : List Nat) :
    ∀ (fuel pos : Nat) (tokens : List Token), input.length - pos < fuel →
      lexLoop input fuel pos tokens ≠ LexOutcome.fuelOut := by
  intro fuel
  induction fuel with
  | zero => intro pos tokens hf; omega
  | succ fuel ih =>
    intro pos tokens hf
    by_cases h : pos < input.length
    · rcases lexLoop_step input fuel pos tokens h with ⟨p, tokens2, hp, heq⟩ | heq | heq
      · rw [heq]
        exact ih p tokens2 (by omega)
      · simp [heq]
      · simp [heq]
    · simp only [lexLoop]
      rw [dif_neg h]
      simp

theorem lex_ne_fuelOut (input : List Nat) : lex input ≠ LexOutcome.fuelOut :=
  lexLoop_ne_fuelOut input (input.length + 1) 0 [] (by omega)

theorem lexLoop_err_invalid (input : List Nat) :
    ∀ (fuel pos : Nat) (tokens : List Token) (e : LexError),
      lexLoop input fuel pos tokens = LexOutcome.err e →
      ∃ c, e.value = LexErrorKind.InvalidChar c := by
  intro fuel
  induction fuel with
  | zero => intro pos tokens e he; exact LexOutcome.noConfusion he
  | succ fuel ih =>
    intro pos tokens e he
    by_cases h : pos < input.length
    · rcases lexLoop_step input fuel pos tokens h with ⟨p, tokens2, hp, heq⟩ | heq | heq
      · rw [heq] at he
        exact ih p tokens2 e he
      · rw [heq] at he
        exact LexOutcome.noConfusion he
      · rw [heq] at he
        injection he with h2
        subst h2
        exact ⟨input[pos], rfl⟩
    · simp only [lexLoop] at he
      rw [dif_neg h] at he
      exact LexOutcome.noConfusion he

theorem lexLoop_ws_only (input : List Nat) :
    ∀ (fuel pos : Nat) (tokens : List Token),
      input.length - pos < fuel →
      (∀ (i : Nat) (hi : i < input.length), pos ≤ i →
        input[i] = 32 ∨ input[i] = 10 ∨ input[i] = 9) →
      lexLoop input fuel pos tokens = LexOutcome.ok tokens := by
  intro fuel
  induction fuel with
  | zero => intro pos tokens hf hws; omega
  | succ fuel ih =>
    intro pos tokens hf hws
    by_cases h : pos < input.length
    · have hw := hws pos h (Nat.le_refl pos)
      simp only [lexLoop]
      rw [dif_pos h, if_neg (by omega), if_neg (by omega), if_neg (by omega),
        if_neg (by omega), if_neg (by omega), if_neg (by omega), if_neg (by omega),
        if_pos hw]
      simp only [skip_spaces]
      have hadv : pos + 1 ≤ recognize_many input pos fun b => ([32, 10, 9].contains b) :=
        recognize_many_advance input pos _ h (by rcases hw with hw2|hw2|hw2 <;> rw [hw2] <;> decide)
      exact ih _ tokens (by omega) (fun i hi hle => hws i hi (by omega))
    · simp only [lexLoop]
      rw [dif_neg h]

/-- Claim C1, evidence of the code bug: on the one-digit valid input 1 the
lexer does not succeed with a Number token; it panics inside lex_number,
whose slice from start to pos is empty because pos is never advanced, so
the unwrap of the failed parse aborts the program. -/
theorem lex_single_digit_panics : lex [49] = LexOutcome.panic := by rfl

/-- Claim C2, evidence of the code bug: the number sub-lexer never returns
a token at all; for every buffer and offset it parses the empty slice from
start to pos and unwraps the failure, a panic, instead of consuming the
digit run computed by recognize_many into its unused local. -/
theorem lex_number_never_returns (input : List Nat) (pos : Nat) :
    lex_number input pos = none :=
  lex_number_eq_none input pos

/-- Claim C3, evidence of the code bug: on the input of the repository test,
1 + 2 * 3 - -10, the lexer panics at the very first digit instead of
producing the eight tokens the test asserts, so the code contradicts its
own test. -/
theorem lex_test_scenario_panics :
    lex [49, 32, 43, 32, 50, 32, 42, 32, 51, 32, 45, 32, 45, 49, 48] =
      LexOutcome.panic := by rfl

/-- Claim C4, evidence of the code bug: on the input 1 and ampersand the
lexer panics inside lex_number at the leading digit and never reaches the
invalid byte, so the caller receives neither the token sequence nor the
claimed InvalidChar error. -/
theorem lex_digit_then_invalid_panics : lex [49, 38] = LexOutcome.panic := by rfl

/-- Claim C5: the shared consume-expected-byte primitive fails with Eof on
the empty span when the offset is past the end, fails with InvalidChar and
the unit span when the byte is present but different, and succeeds with
the byte and the next offset otherwise; each of the six fixed-byte
sub-lexers then returns its token with the unit span at the start offset
and the offset plus one. -/
theorem consume_byte_and_sublexers_spec :
    (∀ (input : List Nat) (pos b : Nat), input.length ≤ pos →
      consume_byte input pos b = Except.error (LexError.eof (Loc.mk pos pos))) ∧
    (∀ (input : List Nat) (pos b : Nat) (h : pos < input.length),
      input[pos] ≠ b →
      consume_byte input pos b =
        Except.error (LexError.invalid_char (input[pos]) (Loc.mk pos (pos + 1)))) ∧
    (∀ (input : List Nat) (pos b : Nat) (h : pos < input.length),
      input[pos] = b → consume_byte input pos b = Except.ok (b, pos + 1)) ∧
    (∀ (input : List Nat) (pos : Nat) (h : pos < input.length),
      (input[pos] = 43 →
        lex_plus input pos = Except.ok (Token.plus (Loc.mk pos (pos + 1)), pos + 1)) ∧
      (input[pos] = 45 →
        lex_minus input pos = Except.ok (Token.minus (Loc.mk pos (pos + 1)), pos + 1)) ∧
      (input[pos] = 42 →
        lex_asterisk input pos =
          Except.ok (Token.asterisk (Loc.mk pos (pos + 1)), pos + 1)) ∧
      (input[pos] = 47 →
        lex_slash input pos = Except.ok (Token.slash (Loc.mk pos (pos + 1)), pos + 1)) ∧
      (input[pos] = 40 →
        lex_lparen input pos = Except.ok (Token.lparen (Loc.mk pos (pos + 1)), pos + 1)) ∧
      (input[pos] = 41 →
        lex_rparen input pos = Except.ok (Token.rparen (Loc.mk pos (pos + 1)), pos + 1))) :=
  ⟨consume_byte_eof, consume_byte_mismatch, consume_byte_hit,
    fun input pos h =>
      ⟨lex_plus_hit input pos h, lex_minus_hit input pos h,
       lex_asterisk_hit input pos h, lex_slash_hit input pos h,
       lex_lparen_hit input pos h, lex_rparen_hit input pos h⟩⟩

/-- Claim C5 witness: the three consume-byte cases and a sub-lexer success
instantiated at concrete inputs. -/
theorem consume_byte_and_sublexers_spec_witness :
    consume_byte [43] 1 43 = Except.error (LexError.eof (Loc.mk 1 1)) ∧
    consume_byte [38] 0 43 =
      Except.error (LexError.invalid_char 38 (Loc.mk 0 1)) ∧
    consume_byte [43] 0 43 = Except.ok (43, 1) ∧
    lex_plus [43] 0 = Except.ok (Token.plus (Loc.mk 0 1), 1) := by
  refine ⟨?_, ?_, ?_, ?_⟩
  · exact consume_byte_and_sublexers_spec.1 [43] 1 43 (by decide)
  · exact consume_byte_and_sublexers_spec.2.1 [38] 0 43 (by decide) (by decide)
  · exact consume_byte_and_sublexers_spec.2.2.1 [43] 0 43 (by decide) (by decide)
  · exact (consume_byte_and_sublexers_spec.2.2.2 [43] 0 (by decide)).1 (by decide)

/-- Claim C6, evidence of the code bug: on the valid one-digit input 0 the
driver loop ends in a panic propagated out of lex_number, so it neither
reaches the end of the input with a token sequence nor returns a LexError;
the loop does stop, but only because the panic aborts it. -/
theorem lex_zero_digit_panics : lex [48] = LexOutcome.panic := by rfl

/-- Claim C7: the empty input and every input made only of space, newline
and tab bytes produce the empty token sequence and no error. -/
theorem lex_empty_and_whitespace_ok :
    lex [] = LexOutcome.ok [] ∧
    ∀ (input : List Nat), (∀ b ∈ input, b = 32 ∨ b = 10 ∨ b = 9) →
      lex input = LexOutcome.ok [] := by
  refine ⟨by rfl, ?_⟩
  intro input hws
  exact lexLoop_ws_only input (input.length + 1) 0 []
    (by omega) (fun i hi _ => hws (input[i]) (List.getElem_mem hi))

/-- Claim C7 witness: a concrete whitespace-only input. -/
theorem lex_empty_and_whitespace_ok_witness :
    lex [32, 10, 9] = LexOutcome.ok [] :=
  lex_empty_and_whitespace_ok.2 [32, 10, 9] (by decide)

/-- Claim C8: the whitespace skipper always succeeds, returns the offset
immediately after the maximal run of space, newline and tab bytes starting
at the given offset, and produces no token. -/
theorem skip_spaces_spec :
    ∀ (input : List Nat) (pos : Nat),
      ∃ p, skip_spaces input pos = Except.ok ((), p) ∧ pos ≤ p ∧
        (∀ i, pos ≤ i → i < p → ∃ hi : i < input.length,
          (input[i] = 32 ∨ input[i] = 10 ∨ input[i] = 9)) ∧
        (∀ hp : p < input.length,
          ¬(input[p] = 32 ∨ input[p] = 10 ∨ input[p] = 9)) := by
  intro input pos
  refine ⟨recognize_many input pos fun b => ([32, 10, 9].contains b), rfl,
    recognize_many_ge input pos _, ?_, ?_⟩
  · intro i h1 h2
    obtain ⟨hi, hf⟩ := recognize_many_sat input pos _ i h1 h2
    exact ⟨hi, by simpa using hf⟩
  · intro hp
    have hstop := recognize_many_stop input pos _ hp
    simpa using hstop

/-- Claim C8 witness: the spec applied to a concrete buffer and offset. -/
theorem skip_spaces_spec_witness :
    ∃ p, skip_spaces [32, 49] 0 = Except.ok ((), p) :=
  (skip_spaces_spec [32, 49] 0).imp fun p hp => hp.1

/-- Claim C9: merge takes the minimum of the starts and the maximum of the
ends, the result contains both inputs and is the smallest span doing so in
either order of the arguments, and merging a span with itself gives the
span back. -/
theorem merge_spec :
    ∀ A B : Loc,
      Loc.merge A B = Loc.mk (min A.lo B.lo) (max A.hi B.hi) ∧
      spanContains (Loc.merge A B) A ∧
      spanContains (Loc.merge A B) B ∧
      (∀ C : Loc, spanContains C A → spanContains C B →
        spanContains C (Loc.merge A B)) ∧
      Loc.merge B A = Loc.merge A B ∧
      Loc.merge A A = A := by
  intro A B
  refine ⟨rfl, ⟨?_, ?_⟩, ⟨?_, ?_⟩, ?_, ?_, ?_⟩
  · simp [Loc.merge]
  · simp [Loc.merge]
  · simp [Loc.merge]
  · simp [Loc.merge]
  · intro C h1 h2
    obtain ⟨h1a, h1b⟩ := h1
    obtain ⟨h2a, h2b⟩ := h2
    exact ⟨by simp [Loc.merge]; omega, by simp [Loc.merge]; omega⟩
  · simp [Loc.merge, Nat.min_comm, Nat.max_comm]
  · cases A
    simp [Loc.merge]

/-- Claim C9 witness: containment facts of merge at concrete spans, through
the general theorem. -/
theorem merge_spec_witness :
    spanContains (Loc.merge (Loc.mk 1 3) (Loc.mk 0 5)) (Loc.mk 1 3) ∧
    spanContains (Loc.mk 0 6) (Loc.merge (Loc.mk 1 3) (Loc.mk 0 5)) :=
  ⟨(merge_spec (Loc.mk 1 3) (Loc.mk 0 5)).2.1,
   (merge_spec (Loc.mk 1 3) (Loc.mk 0 5)).2.2.2.1 (Loc.mk 0 6)
     ⟨by decide, by decide⟩ ⟨by decide, by decide⟩⟩

/-- Claim C10: every error the lexer returns carries the InvalidChar kind
and never the Eof kind; the Eof branch of consume_byte is unreachable from
the driver because each single-byte sub-lexer is invoked only when the
current byte is in bounds and equals its expected byte. -/
theorem lex_error_always_invalid_char :
    ∀ (input : List Nat) (e : LexError), lex input = LexOutcome.err e →
      (∃ c, e.value = LexErrorKind.InvalidChar c) ∧
      e.value ≠ LexErrorKind.Eof := by
  intro input e he
  obtain ⟨c, hc⟩ := lexLoop_err_invalid input (input.length + 1) 0 [] e he
  refine ⟨⟨c, hc⟩, ?_⟩
  rw [hc]
  intro hcon
  exact LexErrorKind.noConfusion hcon

/-- Claim C10 witness: the only error outcome at a concrete invalid input,
checked through the general theorem. -/
theorem lex_error_always_invalid_char_witness :
    (∃ c, (LexError.invalid_char 38 (Loc.mk 0 1)).value =
      LexErrorKind.InvalidChar c) ∧
    (LexError.invalid_char 38 (Loc.mk 0 1)).value ≠ LexErrorKind.Eof :=
  lex_error_always_invalid_char [38] (LexError.invalid_char 38 (Loc.mk 0 1)) (by rfl)
